import Mathlib

/-!
# Verification of the forex RSI bot signal-detection engine

Shallow embedding of `src/main.py` (RSI calculator, crossing state tracker,
scheduler due-check, configuration loading, and the per-tick evaluation of the
bot loop), with theorems settling the specification claims.

Real numbers of the source (Python floats) are modelled as rationals `ℚ`;
`round(x, 2)` is modelled as exact round-half-even at two decimal places.
-/

set_option autoImplicit false

namespace ForexRsiBot

/-- Round to the nearest integer, ties to even (Python's `round`). -/
def roundHalfEven (x : ℚ) : ℤ :=
  let n := ⌊x⌋
  let f := x - n
  if f < 1/2 then n
  else if 1/2 < f then n + 1
  else if n % 2 = 0 then n else n + 1

/-- Python `round(x, 2)`. -/
def round2 (x : ℚ) : ℚ := (roundHalfEven (x * 100) : ℚ) / 100

/-!
## RSI calculator (`calculate_rsi`, src/main.py lines 43–77)

The two Python `for` loops over index ranges are embedded as recursions on the
number of remaining iterations, with `i` the current Python loop index and
list indexing `closes[j]` embedded as `closes.getD j 0` (every access is proved
in range separately, see the checked variant below).
-/

/-- The seed loop `for i in range(1, period + 1)` of `calculate_rsi`: builds the
`gains` and `losses` lists from the first `period` adjacent changes. -/
def seedAux (closes : List ℚ) (i : ℕ) : ℕ → List ℚ × List ℚ
  | 0 => ([], [])
  | n + 1 =>
    let change := closes.getD i 0 - closes.getD (i - 1) 0
    let rest := seedAux closes (i + 1) n
    if change ≥ 0 then (change :: rest.1, 0 :: rest.2)
    else (0 :: rest.1, |change| :: rest.2)

/-- The smoothing loop `for i in range(period + 1, len(closes))` of
`calculate_rsi`: Wilder's recurrence on the running averages. -/
def smoothAux (closes : List ℚ) (period : ℕ) (i : ℕ) (ag al : ℚ) : ℕ → ℚ × ℚ
  | 0 => (ag, al)
  | n + 1 =>
    let change := closes.getD i 0 - closes.getD (i - 1) 0
    let gain := max change 0
    let loss := max (-change) 0
    smoothAux closes period (i + 1)
      ((ag * ((period : ℚ) - 1) + gain) / period)
      ((al * ((period : ℚ) - 1) + loss) / period) n

/-- `calculate_rsi(closes, period=14)` of src/main.py. -/
def calculate_rsi (closes : List ℚ) (period : ℕ := 14) : Option ℚ :=
  if closes.length < period + 1 then none
  else
    let seeded := seedAux closes 1 period
    let avg_gain := seeded.1.sum / period
    let avg_loss := seeded.2.sum / period
    let smoothed :=
      smoothAux closes period (period + 1) avg_gain avg_loss
        (closes.length - (period + 1))
    if smoothed.2 = 0 then some 100
    else
      let rs := smoothed.1 / smoothed.2
      some (round2 (100 - 100 / (1 + rs)))

/-!
## The Wilder reference (from the spec, §4.1)

A second definition of the RSI computation written from the specification's
words, to be compared with `calculate_rsi` (translated from the source):
seed averages are simple means of the gains/losses of the first `period`
adjacent changes, each subsequent change updates both averages by
`avg = (avg*(period-1) + x)/period`, `avg_loss = 0` gives exactly `100`,
otherwise `100 - 100/(1 + avg_gain/avg_loss)` rounded to 2 decimal places.
-/

/-- The adjacent changes `closes[i+1] - closes[i]` of a price series. -/
def changes (closes : List ℚ) : List ℚ :=
  List.zipWith (fun a b => b - a) closes closes.tail

/-- One Wilder smoothing update of the pair (avg_gain, avg_loss) by a signed
change, as the spec states it. -/
def wilderStep (period : ℕ) (p : ℚ × ℚ) (c : ℚ) : ℚ × ℚ :=
  ((p.1 * ((period : ℚ) - 1) + max c 0) / period,
   (p.2 * ((period : ℚ) - 1) + max (-c) 0) / period)

/-- The spec's Wilder smoothed reference RSI (§4.1). -/
def wilderReference (closes : List ℚ) (period : ℕ) : Option ℚ :=
  if closes.length < period + 1 then none
  else
    let cs := changes closes
    let seed := cs.take period
    let avgGain := (seed.map fun c => max c 0).sum / period
    let avgLoss := (seed.map fun c => max (-c) 0).sum / period
    let final := (cs.drop period).foldl (wilderStep period) (avgGain, avgLoss)
    if final.2 = 0 then some 100
    else some (round2 (100 - 100 / (1 + final.1 / final.2)))

/-!
## Checked RSI: every list access and division made explicit

`calcRsiChecked` is the same transliteration of `calculate_rsi` with each list
index embedded as a fallible access and each division guarded, so that freedom
from out-of-range indexing and division by zero is a provable statement.
-/

/-- Failure modes a Python execution of `calculate_rsi` could raise. -/
inductive RsiErr
  | indexError
  | divByZero
  deriving DecidableEq, Repr

/-- Checked list indexing: `closes[i]`. -/
def getE (xs : List ℚ) (i : ℕ) : Except RsiErr ℚ :=
  match xs.get? i with
  | some v => .ok v
  | none => .error .indexError

/-- Checked division. -/
def divE (a b : ℚ) : Except RsiErr ℚ :=
  if b = 0 then .error .divByZero else .ok (a / b)

/-- Checked seed loop of `calculate_rsi`. -/
def seedAuxC (closes : List ℚ) (i : ℕ) : ℕ → Except RsiErr (List ℚ × List ℚ)
  | 0 => .ok ([], [])
  | n + 1 => do
    let c1 ← getE closes i
    let c0 ← getE closes (i - 1)
    let change := c1 - c0
    let rest ← seedAuxC closes (i + 1) n
    if change ≥ 0 then .ok (change :: rest.1, 0 :: rest.2)
    else .ok (0 :: rest.1, |change| :: rest.2)

/-- Checked smoothing loop of `calculate_rsi`. -/
def smoothAuxC (closes : List ℚ) (period : ℕ) (i : ℕ) (ag al : ℚ) :
    ℕ → Except RsiErr (ℚ × ℚ)
  | 0 => .ok (ag, al)
  | n + 1 => do
    let c1 ← getE closes i
    let c0 ← getE closes (i - 1)
    let change := c1 - c0
    let gain := max change 0
    let loss := max (-change) 0
    let ag' ← divE (ag * ((period : ℚ) - 1) + gain) period
    let al' ← divE (al * ((period : ℚ) - 1) + loss) period
    smoothAuxC closes period (i + 1) ag' al' n

/-- Checked variant of `calculate_rsi`: an `Except` value recording whether any
list access went out of range or any division hit a zero divisor. -/
def calcRsiChecked (closes : List ℚ) (period : ℕ) : Except RsiErr (Option ℚ) :=
  if closes.length < period + 1 then .ok none
  else do
    let seeded ← seedAuxC closes 1 period
    let avg_gain ← divE seeded.1.sum period
    let avg_loss ← divE seeded.2.sum period
    let smoothed ←
      smoothAuxC closes period (period + 1) avg_gain avg_loss
        (closes.length - (period + 1))
    if smoothed.2 = 0 then .ok (some 100)
    else do
      let rs ← divE smoothed.1 smoothed.2
      .ok (some (round2 (100 - 100 / (1 + rs))))

/-!
## Crossing state tracker and bot loop (src/main.py lines 168–249)

The alert-state dictionary `last_alert_state` is embedded as an association
list; `dict.get(key, "neutral")` becomes `getState`, assignment becomes
`setState`. The threshold decision of lines 208–243 is `evalStep`; a tick's
iteration over symbols for one due timeframe is `processSymbols`, parameterised
by a `fetch` oracle standing for `fetch_data` (returning the optional RSI and
the price). Message-text formatting, the Telegram cooldown cache and the
rate-limit warning (lines 83–100, 197–206) are I/O glue outside the core and
alerts are recorded structurally as (symbol, timeframe, rsi, price, direction).
-/

/-- Direction of an emitted threshold-crossing transition. -/
inductive Direction
  | ABOVE
  | BELOW
  deriving DecidableEq, Repr

/-- `last_alert_state.get(key, "neutral")`. -/
def getState (store : List (String × String)) (key : String) : String :=
  (store.lookup key).getD "neutral"

/-- `last_alert_state[key] = v`. -/
def setState : List (String × String) → String → String → List (String × String)
  | [], key, v => [(key, v)]
  | (k, w) :: rest, key, v =>
    if k = key then (k, v) :: rest else (k, w) :: setState rest key v

/-- The threshold decision of src/main.py lines 208–243 for one reading:
given the previous stored state and the RSI value, the new stored state and
the emitted transition (if any). -/
def evalStep (upper lower : ℚ) (prev : String) (rsi : ℚ) :
    String × Option Direction :=
  if rsi > upper ∧ prev ≠ "above" then ("above", some .ABOVE)
  else if rsi < lower ∧ prev ≠ "below" then ("below", some .BELOW)
  else ("neutral", none)

/-- Classification of a reading against the thresholds, independent of state. -/
def classify (upper lower : ℚ) (rsi : ℚ) : String :=
  if rsi > upper then "above" else if rsi < lower then "below" else "neutral"

/-- Trace of successive evaluations of one key: for each reading, the stored
state before the tick, the reading, and the emitted transition. -/
def runTrace (upper lower : ℚ) (s : String) :
    List ℚ → List (String × ℚ × Option Direction)
  | [] => []
  | r :: rs =>
    let step := evalStep upper lower s r
    (s, r, step.2) :: runTrace upper lower step.1 rs

/-- State threaded through one evaluation tick: the alert-state store, the
notifications dispatched, and the CSV rows logged. -/
structure TickState where
  store : List (String × String)
  alerts : List (String × String × ℚ × ℚ × Direction)
  logs : List (String × String × ℚ × ℚ × Direction)
  deriving DecidableEq, Repr

/-- Lines 187–243 of src/main.py for one symbol of a due timeframe: fetch,
skip when the RSI is unavailable, otherwise evaluate and on a transition
dispatch a notification and a log row and store the new state. -/
def processSymbol (upper lower : ℚ) (fetch : String → String → Option ℚ × ℚ)
    (timeframe symbol : String) (st : TickState) : TickState :=
  let fetched := fetch symbol timeframe
  match fetched.1 with
  | none => st
  | some rsi =>
    let price := fetched.2
    let key := symbol ++ "_" ++ timeframe
    let prev := getState st.store key
    let step := evalStep upper lower prev rsi
    match step.2 with
    | some d =>
      { store := setState st.store key step.1,
        alerts := st.alerts ++ [(symbol, timeframe, rsi, price, d)],
        logs := st.logs ++ [(symbol, timeframe, rsi, price, d)] }
    | none => { st with store := setState st.store key step.1 }

/-- One due timeframe's pass over the symbol list (the inner `for symbol in
SYMBOLS` loop). -/
def processSymbols (upper lower : ℚ) (fetch : String → String → Option ℚ × ℚ)
    (timeframe : String) (symbols : List String) (st : TickState) : TickState :=
  symbols.foldl (fun acc sym => processSymbol upper lower fetch timeframe sym acc) st

/-!
## Scheduler due-check (src/main.py lines 179–185)

`continue` on a timeframe means "not due"; the source tests only the literal
strings `"5min"` and `"15min"`.
-/

/-- Whether the loop evaluates `timeframe` at wall-clock minute `minute`. -/
def is_due (timeframe : String) (minute : ℕ) : Bool :=
  if timeframe = "5min" ∧ minute % 5 ≠ 0 then false
  else if timeframe = "15min" ∧ minute % 15 ≠ 0 then false
  else true

/-!
## Configuration loading (src/main.py lines 13–24)

Environment access is an oracle `getenv`; numeric parsing (`float`, `int`) is
an oracle returning `none` where Python would raise at startup. `SYMBOLS`
unset makes `None.split(",")` raise, hence `none`. No other validation exists:
in particular no comparison between the two thresholds.
-/

/-- Result of startup configuration loading. -/
structure Config where
  apiKey : Option String
  botToken : Option String
  chatId : Option String
  symbols : List String
  timeframes : List String
  rsiPeriod : ℕ
  rsiUpper : ℚ
  rsiLower : ℚ
  checkInterval : ℤ

/-- `float(os.getenv(name, dflt))` / `int(os.getenv(name, dflt))`: the default
is a literal that never fails to convert; a present value goes through the
parser and a parse failure is a startup crash. -/
def parsedOr {α : Type} (parse : String → Option α) (dflt : α) :
    Option String → Option α
  | none => some dflt
  | some s => parse s

/-- The module-level configuration of src/main.py lines 13–24: `none` is a
startup failure. -/
def loadConfig (getenv : String → Option String)
    (parseFloat : String → Option ℚ) (parseZ : String → Option ℤ) :
    Option Config :=
  match getenv "SYMBOLS" with
  | none => none
  | some syms =>
    match parsedOr parseFloat 60 (getenv "RSI_UPPER"),
          parsedOr parseFloat 40 (getenv "RSI_LOWER"),
          parsedOr parseZ 60 (getenv "CHECK_INTERVAL") with
    | some u, some l, some ci =>
      some { apiKey := getenv "TWELVEDATA_API_KEY",
             botToken := getenv "TELEGRAM_BOT_TOKEN",
             chatId := getenv "TELEGRAM_CHAT_ID",
             symbols := syms.splitOn ",",
             timeframes := ((getenv "TIMEFRAMES").getD "5min,15min").splitOn ",",
             rsiPeriod := 14,
             rsiUpper := u,
             rsiLower := l,
             checkInterval := ci }
    | _, _, _ => none

/-!
## Auxiliary definitions for the statements
-/

/-- The spec's pinned seed scenario (§8): fifteen closes, period 14. -/
def pinnedCloses : List ℚ :=
  [44, 44.25, 44.5, 43.75, 44.65, 45.12, 45.9, 46.25, 45.8, 46.1, 46.4, 46.0, 45.9, 46.2, 46.5]

/-- The pair of smoothed averages at the end of the window, exactly as
`calculate_rsi` computes them before the final branch. -/
def finalAverages (closes : List ℚ) (period : ℕ) : ℚ × ℚ :=
  let seeded := seedAux closes 1 period
  smoothAux closes period (period + 1) (seeded.1.sum / period) (seeded.2.sum / period)
    (closes.length - (period + 1))

/-- A stored alert-state value is one of the three states. -/
def goodState (s : String) : Prop := s = "neutral" ∨ s = "above" ∨ s = "below"

/-- Every value stored in the alert-state store is one of the three states. -/
def goodStore (store : List (String × String)) : Prop := ∀ p ∈ store, goodState p.2

/-- The spec's end-to-end scenario (§8): one symbol "AAA" on timeframe
"5min", thresholds 60/40, evaluated at five due ticks whose fetches return
the given RSI readings in order (the price plays no role in the decision). -/
def seqTicks (rs : List ℚ) (st : TickState) : TickState :=
  rs.foldl
    (fun acc r => processSymbol 60 40 (fun _ _ => (some r, r)) "5min" "AAA" acc) st

/-- A concrete environment with inverted thresholds (upper 40 ≤ lower 60). -/
def invertedEnv : String → Option String := fun name =>
  if name = "SYMBOLS" then some "EUR/USD,USD/JPY"
  else if name = "RSI_UPPER" then some "40"
  else if name = "RSI_LOWER" then some "60"
  else none

/-- A concrete model of Python `float(...)` covering the values used above. -/
def tinyParseFloat : String → Option ℚ := fun s =>
  if s = "40" then some 40 else if s = "60" then some 60 else none

/-- A concrete model of Python `int(...)` covering the values used above. -/
def tinyParseZ : String → Option ℤ := fun s =>
  if s = "60" then some 60 else none

/-!
## Theorems

### C4 — insufficient history gives the Undefined marker
-/

/-- Claim C4: for every list of closes with length strictly less than
`period + 1`, `calculate_rsi` returns the insufficient-data marker (`none`)
rather than a numeric value, and the checked run raises no error. -/
theorem c4_insufficient_history (closes : List ℚ) (period : ℕ)
    (h : closes.length < period + 1) :
    calculate_rsi closes period = none ∧ calcRsiChecked closes period = .ok none := by
  constructor
  · unfold calculate_rsi
    rw [if_pos h]
  · unfold calcRsiChecked
    rw [if_pos h]

/-- Witness for C4 at the concrete input `[1, 2, 3]`, period 14. -/
theorem c4_witness :
    calculate_rsi [1, 2, 3] 14 = none ∧ calcRsiChecked [1, 2, 3] 14 = .ok none :=
  c4_insufficient_history [1, 2, 3] 14 (by decide)

/-!
### C1 — the threshold decision table

The source deviates from the spec's decision table in the two sticky rows:
with `rsi > upper` and previous state `above` (and symmetrically `rsi < lower`
and previous state `below`) the `else` branch of lines 242–243 resets the
stored state to `neutral` instead of keeping `above` (resp. `below`).
-/

/-- Claim C1 counterexample: at rsi 65, upper 60, lower 40 and previous state
`above`, the code stores `neutral`, not `above` as the decision table says. -/
theorem c1_counterexample :
    (65 : ℚ) > 60 ∧ evalStep 60 40 "above" 65 = ("neutral", none) ∧
      ("neutral" : String) ≠ "above" := by
  refine ⟨by norm_num, ?_, by decide⟩
  decide

/-- Claim C1 amended: assuming `lower < upper`, the evaluation follows the
decision table except in the sticky rows: when the classification equals the
previous stored state the new state is `neutral` (with no transition), not the
previous state. -/
theorem c1_amended_decision_table (upper lower : ℚ) (prev : String) (rsi : ℚ)
    (hol : lower < upper) :
    (rsi > upper → prev ≠ "above" → evalStep upper lower prev rsi = ("above", some .ABOVE)) ∧
    (rsi > upper → prev = "above" → evalStep upper lower prev rsi = ("neutral", none)) ∧
    (rsi < lower → prev ≠ "below" → evalStep upper lower prev rsi = ("below", some .BELOW)) ∧
    (rsi < lower → prev = "below" → evalStep upper lower prev rsi = ("neutral", none)) ∧
    (lower ≤ rsi → rsi ≤ upper → evalStep upper lower prev rsi = ("neutral", none)) := by
  refine ⟨?_, ?_, ?_, ?_, ?_⟩
  · intro h1 h2
    unfold evalStep
    rw [if_pos ⟨h1, h2⟩]
  · intro h1 h2
    unfold evalStep
    have hnot1 : ¬(rsi > upper ∧ prev ≠ "above") := fun hc => hc.2 h2
    have hnot2 : ¬(rsi < lower ∧ prev ≠ "below") := fun hc =>
      absurd h1 (not_lt.mpr (le_of_lt (lt_trans hc.1 hol)))
    rw [if_neg hnot1, if_neg hnot2]
  · intro h1 h2
    unfold evalStep
    have hnot1 : ¬(rsi > upper ∧ prev ≠ "above") := fun hc =>
      absurd hc.1 (not_lt.mpr (le_of_lt (lt_trans h1 hol)))
    rw [if_neg hnot1, if_pos ⟨h1, h2⟩]
  · intro h1 h2
    unfold evalStep
    have hnot1 : ¬(rsi > upper ∧ prev ≠ "above") := fun hc =>
      absurd hc.1 (not_lt.mpr (le_of_lt (lt_trans h1 hol)))
    have hnot2 : ¬(rsi < lower ∧ prev ≠ "below") := fun hc => hc.2 h2
    rw [if_neg hnot1, if_neg hnot2]
  · intro h1 h2
    unfold evalStep
    have hnot1 : ¬(rsi > upper ∧ prev ≠ "above") := fun hc => absurd hc.1 (not_lt.mpr h2)
    have hnot2 : ¬(rsi < lower ∧ prev ≠ "below") := fun hc => absurd hc.1 (not_lt.mpr h1)
    rw [if_neg hnot1, if_neg hnot2]

/-- Witness for the amended C1 at upper 60, lower 40, previous state
`neutral`, rsi 65. -/
theorem c1_amended_witness : evalStep 60 40 "neutral" 65 = ("above", some Direction.ABOVE) :=
  (c1_amended_decision_table 60 40 "neutral" 65 (by norm_num)).1 (by norm_num) (by decide)

/-!
### C6 — the scheduler due-check

The source only special-cases the literal strings `"5min"` and `"15min"`
(lines 181–184); any other timeframe string is due on every minute, so the
generic "Nmin is due iff minute % N == 0" policy does not hold on the code.
-/

/-- Claim C6 counterexample: `"30min"` is of the form "Nmin" with N = 30, yet
the due-check accepts minute 7 although 7 % 30 ≠ 0. -/
theorem c6_counterexample : is_due "30min" 7 = true ∧ 7 % 30 ≠ 0 := by
  constructor
  · decide
  · decide

/-- Claim C6 amended: the due-check is `minute % 5 == 0` for the literal
string `"5min"`, `minute % 15 == 0` for the literal string `"15min"`, and
always true for every other timeframe string. -/
theorem c6_amended_due_check (timeframe : String) (minute : ℕ)
    (h5 : timeframe ≠ "5min") (h15 : timeframe ≠ "15min") :
    is_due "5min" minute = decide (minute % 5 = 0) ∧
    is_due "15min" minute = decide (minute % 15 = 0) ∧
    is_due timeframe minute = true := by
  refine ⟨?_, ?_, ?_⟩
  · by_cases hm : minute % 5 = 0 <;> simp [is_due, hm]
  · by_cases hm : minute % 15 = 0 <;> simp [is_due, hm]
  · simp [is_due, h5, h15]

/-- Witness for the amended C6, covering the spec's three pinned examples and
a non-literal timeframe. -/
theorem c6_amended_witness :
    is_due "5min" 15 = decide (15 % 5 = 0) ∧
    is_due "15min" 15 = decide (15 % 15 = 0) ∧
    is_due "30min" 15 = true :=
  c6_amended_due_check "30min" 15 (by decide) (by decide)

/-!
### C7 — no threshold-ordering validation at startup

Lines 21–22 read `RSI_UPPER` and `RSI_LOWER` with `float(os.getenv(...))` and
never compare them; startup succeeds with inverted thresholds.
-/

/-- Claim C7 counterexample: with `RSI_UPPER=40`, `RSI_LOWER=60` (so
upper ≤ lower) and `SYMBOLS` present, configuration loading succeeds — startup
does not fail — and the loop would run the tracker on inverted thresholds. -/
theorem c7_counterexample :
    (loadConfig invertedEnv tinyParseFloat tinyParseZ).isSome = true ∧
    (loadConfig invertedEnv tinyParseFloat tinyParseZ).map
      (fun c => (c.rsiUpper, c.rsiLower)) = some (40, 60) ∧
    (40 : ℚ) ≤ 60 := by
  refine ⟨?_, ?_, by norm_num⟩
  · rfl
  · rfl

/-- Claim C7 amended: the configuration loader performs no threshold-ordering
check at all — whenever `SYMBOLS` is present and the numeric values convert,
loading succeeds with exactly the parsed thresholds, whatever their order. -/
theorem c7_amended_no_ordering_check (getenv : String → Option String)
    (parseFloat : String → Option ℚ) (parseZ : String → Option ℤ)
    (syms : String) (u l : ℚ) (ci : ℤ)
    (hs : getenv "SYMBOLS" = some syms)
    (hu : parsedOr parseFloat 60 (getenv "RSI_UPPER") = some u)
    (hl : parsedOr parseFloat 40 (getenv "RSI_LOWER") = some l)
    (hc : parsedOr parseZ 60 (getenv "CHECK_INTERVAL") = some ci) :
    ∃ cfg, loadConfig getenv parseFloat parseZ = some cfg ∧
      cfg.rsiUpper = u ∧ cfg.rsiLower = l := by
  simp only [loadConfig, hs, hu, hl, hc]
  exact ⟨_, rfl, rfl, rfl⟩

/-- Witness for the amended C7 at the concrete inverted environment. -/
theorem c7_amended_witness :
    ∃ cfg, loadConfig invertedEnv tinyParseFloat tinyParseZ = some cfg ∧
      cfg.rsiUpper = 40 ∧ cfg.rsiLower = 60 :=
  c7_amended_no_ordering_check invertedEnv tinyParseFloat tinyParseZ
    "EUR/USD,USD/JPY" 40 60 60 rfl rfl rfl rfl

/-!
### C2 — edge-triggered alerting
-/

/-- If one evaluation emits a transition, the reading's classification differs
from the previously stored state. -/
theorem evalStep_fire_ne_classify (upper lower : ℚ) (hle : lower ≤ upper)
    (prev : String) (rsi : ℚ) (d : Direction)
    (h : (evalStep upper lower prev rsi).2 = some d) :
    classify upper lower rsi ≠ prev := by
  unfold evalStep at h
  by_cases h1 : rsi > upper ∧ prev ≠ "above"
  · unfold classify
    rw [if_pos h1.1]
    exact fun he => h1.2 he.symm
  · rw [if_neg h1] at h
    by_cases h2 : rsi < lower ∧ prev ≠ "below"
    · unfold classify
      have hnu : ¬rsi > upper := not_lt.mpr (le_of_lt (lt_of_lt_of_le h2.1 hle))
      rw [if_neg hnu, if_pos h2.1]
      exact fun he => h2.2 he.symm
    · rw [if_neg h2] at h
      exact absurd h (by simp)

/-- Along any trace, every emitted transition happens at a tick whose
classification differs from the state stored before that tick. -/
theorem runTrace_fire_ne_classify (upper lower : ℚ) (hle : lower ≤ upper) :
    ∀ (rs : List ℚ) (s : String), ∀ p ∈ runTrace upper lower s rs,
      ∀ d : Direction, p.2.2 = some d → classify upper lower p.2.1 ≠ p.1 := by
  intro rs
  induction rs with
  | nil =>
    intro s p hp
    simp [runTrace] at hp
  | cons r rest ih =>
    intro s p hp d hd
    simp only [runTrace] at hp
    rcases List.mem_cons.mp hp with he | ht
    · subst he
      exact evalStep_fire_ne_classify upper lower hle s r d hd
    · exact ih _ p ht d hd

/-- Claim C2: alerting is edge-triggered — along any trace of per-tick
evaluations of one key, a transition is emitted only at a tick whose new
classification differs from the previously stored state; and the spec's
pinned reading sequence [55, 65, 62, 58, 35] at upper 60 / lower 40 emits
exactly two transitions, ABOVE at the second tick and BELOW at the fifth,
and the full per-tick loop dispatches exactly those two notifications and
persists exactly two log records. -/
theorem c2_edge_triggered :
    (∀ (upper lower : ℚ) (s : String) (rs : List ℚ), lower ≤ upper →
      ∀ p ∈ runTrace upper lower s rs, ∀ d : Direction, p.2.2 = some d →
        classify upper lower p.2.1 ≠ p.1) ∧
    (runTrace 60 40 "neutral" [55, 65, 62, 58, 35]).map (fun p => p.2.2) =
      [none, some Direction.ABOVE, none, none, some Direction.BELOW] ∧
    ((seqTicks [55, 65, 62, 58, 35] ⟨[], [], []⟩).alerts.map fun a => (a.2.2.1, a.2.2.2.2)) =
      [(65, Direction.ABOVE), (35, Direction.BELOW)] ∧
    (seqTicks [55, 65, 62, 58, 35] ⟨[], [], []⟩).logs.length = 2 := by
  refine ⟨?_, by decide, by decide, by decide⟩
  intro upper lower s rs hle p hp d hd
  exact runTrace_fire_ne_classify upper lower hle rs s p hp d hd

/-- Witness for C2's universal part at a concrete tick. -/
theorem c2_witness : classify 60 40 65 ≠ "neutral" :=
  c2_edge_triggered.1 60 40 "neutral" [65] (by norm_num)
    ("neutral", 65, some Direction.ABOVE) (by decide) Direction.ABOVE rfl

/-!
### C8 — unavailable data skips the pair and the loop continues
-/

/-- Claim C8: when the fetch for a (symbol, timeframe) pair yields no RSI,
that pair's evaluation leaves the whole tick state (store, notifications,
logs) unchanged, and a pass over a symbol list containing that symbol equals
the pass over the list with the symbol removed — the remaining pairs are
still processed. -/
theorem c8_unavailable_skips (upper lower : ℚ)
    (fetch : String → String → Option ℚ × ℚ) (timeframe symbol : String)
    (h : (fetch symbol timeframe).1 = none) :
    (∀ st : TickState, processSymbol upper lower fetch timeframe symbol st = st) ∧
    (∀ (pre post : List String) (st : TickState),
      processSymbols upper lower fetch timeframe (pre ++ symbol :: post) st =
        processSymbols upper lower fetch timeframe (pre ++ post) st) := by
  have hskip : ∀ st : TickState,
      processSymbol upper lower fetch timeframe symbol st = st := by
    intro st
    simp only [processSymbol, h]
  refine ⟨hskip, ?_⟩
  intro pre post st
  unfold processSymbols
  rw [List.foldl_append, List.foldl_append, List.foldl_cons, hskip]

/-- Witness for C8 with a fetch oracle that has no data. -/
theorem c8_witness :
    processSymbol 60 40 (fun _ _ => (none, 0)) "5min" "EURUSD" ⟨[], [], []⟩ =
      ⟨[], [], []⟩ :=
  (c8_unavailable_skips 60 40 (fun _ _ => (none, 0)) "5min" "EURUSD" rfl).1 ⟨[], [], []⟩

/-!
### C9 — the alert-state store invariant
-/

/-- The state stored by one evaluation is one of the three states. -/
theorem goodState_evalStep (upper lower : ℚ) (prev : String) (rsi : ℚ) :
    goodState (evalStep upper lower prev rsi).1 := by
  unfold goodState evalStep
  split_ifs <;> simp

/-- `setState` preserves the store invariant when the written value is one of
the three states. -/
theorem setState_good : ∀ (store : List (String × String)) (key v : String),
    goodStore store → goodState v → goodStore (setState store key v)
  | [], key, v, _, hv => by
    unfold goodStore setState
    intro p hp
    rw [List.mem_singleton] at hp
    subst hp
    exact hv
  | (k, w) :: rest, key, v, hst, hv => by
    unfold goodStore setState
    by_cases hk : k = key
    · rw [if_pos hk]
      intro p hp
      rcases List.mem_cons.mp hp with he | ht
      · subst he
        exact hv
      · exact hst p (List.mem_cons_of_mem _ ht)
    · rw [if_neg hk]
      intro p hp
      rcases List.mem_cons.mp hp with he | ht
      · subst he
        exact hst (k, w) (List.mem_cons_self _ _)
      · exact setState_good rest key v
          (fun q hq => hst q (List.mem_cons_of_mem _ hq)) hv p ht

/-- One symbol's evaluation preserves the store invariant. -/
theorem processSymbol_good (upper lower : ℚ)
    (fetch : String → String → Option ℚ × ℚ) (timeframe symbol : String)
    (st : TickState) (hst : goodStore st.store) :
    goodStore (processSymbol upper lower fetch timeframe symbol st).store := by
  simp only [processSymbol]
  split
  · exact hst
  · split
    · exact setState_good _ _ _ hst (goodState_evalStep _ _ _ _)
    · exact setState_good _ _ _ hst (goodState_evalStep _ _ _ _)

/-- A pass over a symbol list preserves the store invariant. -/
theorem processSymbols_good (upper lower : ℚ)
    (fetch : String → String → Option ℚ × ℚ) (timeframe : String) :
    ∀ (symbols : List String) (st : TickState), goodStore st.store →
      goodStore (processSymbols upper lower fetch timeframe symbols st).store
  | [], _, h => h
  | sym :: rest, st, h =>
    processSymbols_good upper lower fetch timeframe rest _
      (processSymbol_good upper lower fetch timeframe sym st h)

/-- Claim C9: a key never seen before reads as `neutral`, and every
evaluation pass preserves the invariant that all stored values are among
`neutral`, `above`, `below`. -/
theorem c9_store_invariant :
    (∀ (store : List (String × String)) (key : String),
      store.lookup key = none → getState store key = "neutral") ∧
    (∀ (upper lower : ℚ) (fetch : String → String → Option ℚ × ℚ)
      (timeframe : String) (symbols : List String) (st : TickState),
      goodStore st.store →
      goodStore (processSymbols upper lower fetch timeframe symbols st).store) := by
  constructor
  · intro store key h
    unfold getState
    rw [h]
    rfl
  · intro upper lower fetch timeframe symbols st h
    exact processSymbols_good upper lower fetch timeframe symbols st h

/-- Witness for C9 at the empty store. -/
theorem c9_witness : getState [] "EURUSD_5min" = "neutral" :=
  c9_store_invariant.1 [] "EURUSD_5min" rfl

/-!
### The indexed loops of `calculate_rsi` as list operations

These lemmas express the index-based `seedAux`/`smoothAux` recursions as
`take`/`drop`/`map`/`foldl` over the list of adjacent changes, which is the
shape of the spec's Wilder reference.
-/

/-- The changes list has one element fewer than the closes list. -/
theorem length_changes (closes : List ℚ) :
    (changes closes).length = closes.length - 1 := by
  unfold changes
  rw [List.length_zipWith, List.length_tail]
  omega

/-- Element `j` of the changes list is `closes[j+1] - closes[j]`. -/
theorem changes_getD (closes : List ℚ) (j : ℕ) (h : j + 1 < closes.length) :
    (changes closes).getD j 0 = closes.getD (j + 1) 0 - closes.getD j 0 := by
  have hj : j < closes.length := Nat.lt_of_succ_lt h
  unfold changes
  rw [List.getD_eq_getElem?_getD, List.getElem?_zipWith, List.getElem?_tail,
    List.getElem?_eq_getElem hj, List.getElem?_eq_getElem h,
    List.getD_eq_getElem?_getD, List.getD_eq_getElem?_getD,
    List.getElem?_eq_getElem h, List.getElem?_eq_getElem hj]
  rfl

/-- Dropping `j` changes exposes change `j` at the head. -/
theorem changes_drop_cons (closes : List ℚ) (j : ℕ) (h : j + 1 < closes.length) :
    (changes closes).drop j =
      (changes closes).getD j 0 :: (changes closes).drop (j + 1) := by
  have hcl : j < (changes closes).length := by
    rw [length_changes]
    omega
  rw [List.drop_eq_getElem_cons hcl]
  congr 1
  rw [List.getD_eq_getElem?_getD, List.getElem?_eq_getElem hcl]
  rfl

/-- The seed loop is the gain/loss split of the first changes. -/
theorem seedAux_eq (closes : List ℚ) :
    ∀ (n j : ℕ), j + 1 + n ≤ closes.length →
      seedAux closes (j + 1) n =
        ((((changes closes).drop j).take n).map fun c => max c 0,
         (((changes closes).drop j).take n).map fun c => max (-c) 0)
  | 0, j, _ => by simp [seedAux]
  | n + 1, j, h => by
    have hj1 : j + 1 < closes.length := by omega
    have hch : closes.getD (j + 1) 0 - closes.getD (j + 1 - 1) 0 =
        (changes closes).getD j 0 := by
      rw [Nat.add_sub_cancel]
      exact (changes_getD closes j hj1).symm
    rw [changes_drop_cons closes j hj1, List.take_succ_cons, List.map_cons,
      List.map_cons]
    simp only [seedAux]
    rw [hch, seedAux_eq closes n (j + 1) (by omega)]
    by_cases hc : (changes closes).getD j 0 ≥ 0
    · rw [if_pos hc, max_eq_left hc, max_eq_right (neg_nonpos.mpr hc)]
    · have hlt : (changes closes).getD j 0 < 0 := not_le.mp hc
      rw [if_neg hc, max_eq_right (le_of_lt hlt),
        max_eq_left (le_of_lt (neg_pos.mpr hlt)), abs_of_neg hlt]

/-- The smoothing loop is a fold of the Wilder step over the later changes. -/
theorem smoothAux_eq (closes : List ℚ) (period : ℕ) :
    ∀ (n j : ℕ) (ag al : ℚ), j + 1 + n ≤ closes.length →
      smoothAux closes period (j + 1) ag al n =
        (((changes closes).drop j).take n).foldl (wilderStep period) (ag, al)
  | 0, j, ag, al, _ => by simp [smoothAux]
  | n + 1, j, ag, al, h => by
    have hj1 : j + 1 < closes.length := by omega
    have hch : closes.getD (j + 1) 0 - closes.getD (j + 1 - 1) 0 =
        (changes closes).getD j 0 := by
      rw [Nat.add_sub_cancel]
      exact (changes_getD closes j hj1).symm
    rw [changes_drop_cons closes j hj1, List.take_succ_cons, List.foldl_cons]
    simp only [smoothAux]
    rw [hch, smoothAux_eq closes period n (j + 1) _ _ (by omega)]
    rfl

/-!
### C3 — `calculate_rsi` equals the spec's Wilder smoothed reference
-/

/-- Claim C3: on every window of at least `period + 1` closes, `calculate_rsi`
computes exactly the spec's Wilder smoothed reference (simple-mean seed over
the first `period` changes, Wilder recurrence over the remaining changes,
`100` when the smoothed loss is zero, otherwise `100 - 100/(1 + rs)` rounded
to two decimal places). -/
theorem c3_matches_wilder_reference (closes : List ℚ) (period : ℕ)
    (h : period + 1 ≤ closes.length) :
    calculate_rsi closes period = wilderReference closes period := by
  have h1 := seedAux_eq closes period 0 (by omega)
  simp only [Nat.zero_add, List.drop_zero] at h1
  have h3 : ((changes closes).drop period).take (closes.length - (period + 1)) =
      (changes closes).drop period := by
    apply List.take_of_length_le
    rw [List.length_drop, length_changes]
    omega
  unfold calculate_rsi wilderReference
  rw [if_neg (not_lt.mpr h), if_neg (not_lt.mpr h)]
  simp only [h1]
  rw [smoothAux_eq closes period (closes.length - (period + 1)) period _ _ (by omega)]
  rw [h3]

/-- Witness for C3 on the spec's pinned seed scenario: both the source
function and the reference give 71.19. -/
theorem c3_witness :
    calculate_rsi pinnedCloses 14 = some (7119 / 100) ∧
      wilderReference pinnedCloses 14 = some (7119 / 100) := by
  have hv : calculate_rsi pinnedCloses 14 = some (7119 / 100) := by
    norm_num [pinnedCloses, calculate_rsi, seedAux, smoothAux, round2,
      roundHalfEven, abs_of_pos, -Int.self_sub_floor]
  refine ⟨hv, ?_⟩
  rw [← c3_matches_wilder_reference pinnedCloses 14 (by norm_num [pinnedCloses])]
  exact hv

/-!
### C5 — zero smoothed loss gives exactly 100
-/

/-- `calculate_rsi` on a sufficient window, phrased through the final smoothed
averages. -/
theorem calculate_rsi_via_final (closes : List ℚ) (period : ℕ)
    (h : period + 1 ≤ closes.length) :
    calculate_rsi closes period =
      if (finalAverages closes period).2 = 0 then some 100
      else some (round2 (100 - 100 /
        (1 + (finalAverages closes period).1 / (finalAverages closes period).2))) := by
  unfold calculate_rsi finalAverages
  rw [if_neg (not_lt.mpr h)]

/-- In a nondecreasing price series every adjacent change is nonnegative. -/
theorem changes_nonneg : ∀ (closes : List ℚ), closes.Chain' (· ≤ ·) →
    ∀ c ∈ changes closes, 0 ≤ c
  | [], _, c, hm => by simp [changes] at hm
  | [_], _, c, hm => by simp [changes] at hm
  | x :: y :: rest, hc, c, hm => by
    simp only [changes, List.tail_cons, List.zipWith_cons_cons] at hm
    rcases List.mem_cons.mp hm with he | ht
    · subst he
      exact sub_nonneg.mpr (List.chain'_cons.mp hc).1
    · refine changes_nonneg (y :: rest) (List.chain'_cons.mp hc).2 c ?_
      simp only [changes, List.tail_cons]
      exact ht

/-- The seed losses of a nondecreasing series sum to zero. -/
theorem seed_losses_zero (closes : List ℚ) (period : ℕ)
    (h : period + 1 ≤ closes.length) (hc : closes.Chain' (· ≤ ·)) :
    (seedAux closes 1 period).2.sum = 0 := by
  have h1 := seedAux_eq closes period 0 (by omega)
  simp only [Nat.zero_add, List.drop_zero] at h1
  rw [h1]
  apply List.sum_eq_zero
  intro x hx
  obtain ⟨c, hcm, hcx⟩ := List.mem_map.mp hx
  have hcn : 0 ≤ c := changes_nonneg closes hc c (List.mem_of_mem_take hcm)
  rw [← hcx]
  exact max_eq_right (neg_nonpos.mpr hcn)

/-- The Wilder fold keeps a zero average loss at zero when all changes are
nonnegative. -/
theorem foldl_wilderStep_snd_zero (period : ℕ) :
    ∀ (l : List ℚ), (∀ c ∈ l, 0 ≤ c) → ∀ ag : ℚ,
      (l.foldl (wilderStep period) (ag, 0)).2 = 0
  | [], _, _ => rfl
  | c :: rest, h, ag => by
    rw [List.foldl_cons]
    have hc : 0 ≤ c := h c (List.mem_cons_self _ _)
    have h2 : wilderStep period (ag, 0) c =
        ((ag * ((period : ℚ) - 1) + max c 0) / period, 0) := by
      unfold wilderStep
      simp [max_eq_right (neg_nonpos.mpr hc)]
    rw [h2]
    exact foldl_wilderStep_snd_zero period rest
      (fun d hd => h d (List.mem_cons_of_mem _ hd)) _

/-- A nondecreasing series of sufficient length ends with smoothed average
loss zero. -/
theorem finalAverages_snd_zero (closes : List ℚ) (period : ℕ)
    (h : period + 1 ≤ closes.length) (hc : closes.Chain' (· ≤ ·)) :
    (finalAverages closes period).2 = 0 := by
  have hseed := seed_losses_zero closes period h hc
  simp only [finalAverages]
  rw [smoothAux_eq closes period (closes.length - (period + 1)) period _ _ (by omega)]
  rw [hseed, zero_div]
  exact foldl_wilderStep_snd_zero period _
    (fun c hcm => changes_nonneg closes hc c
      (List.mem_of_mem_drop (List.mem_of_mem_take hcm))) _

/-- Claim C5: whenever the smoothed average loss at the end of the window is
zero — in particular for every nondecreasing series of length > period —
`calculate_rsi` returns exactly 100 instead of attempting the division. -/
theorem c5_avg_loss_zero_gives_100 (closes : List ℚ) (period : ℕ)
    (hlen : period + 1 ≤ closes.length)
    (h : (finalAverages closes period).2 = 0 ∨ closes.Chain' (· ≤ ·)) :
    calculate_rsi closes period = some 100 := by
  have h0 : (finalAverages closes period).2 = 0 := by
    rcases h with h | h
    · exact h
    · exact finalAverages_snd_zero closes period hlen h
  rw [calculate_rsi_via_final closes period hlen, if_pos h0]

/-- Witness for C5 on a strictly increasing series of length 16, period 14. -/
theorem c5_witness :
    calculate_rsi [1, 2, 3, 4, 5, 6, 7, 8, 9, 10, 11, 12, 13, 14, 15, 16] 14 = some 100 :=
  c5_avg_loss_zero_gives_100 [1, 2, 3, 4, 5, 6, 7, 8, 9, 10, 11, 12, 13, 14, 15, 16] 14
    (by decide) (Or.inr (by norm_num [List.chain'_cons]))

/-!
### C10 — totality of `calculate_rsi`: no indexing error, no division by zero
-/

/-- Bind after a successful checked step. -/
theorem ok_bind {α β : Type} (a : α) (f : α → Except RsiErr β) :
    (Except.ok a >>= f) = f a := rfl

/-- Checked indexing succeeds in range and yields the plain value. -/
theorem getE_eq (xs : List ℚ) (i : ℕ) (h : i < xs.length) :
    getE xs i = .ok (xs.getD i 0) := by
  unfold getE
  rw [List.get?_eq_getElem?, List.getElem?_eq_getElem h,
    List.getD_eq_getElem?_getD, List.getElem?_eq_getElem h]
  rfl

/-- Checked division succeeds on a nonzero divisor. -/
theorem divE_eq {a b : ℚ} (h : b ≠ 0) : divE a b = .ok (a / b) := by
  unfold divE
  rw [if_neg h]

/-- The checked seed loop succeeds when every index is in range. -/
theorem seedAuxC_eq (closes : List ℚ) :
    ∀ (n i : ℕ), i + n ≤ closes.length →
      seedAuxC closes i n = .ok (seedAux closes i n)
  | 0, _, _ => rfl
  | n + 1, i, h => by
    have hi : i < closes.length := by omega
    have hi1 : i - 1 < closes.length := by omega
    simp only [seedAuxC, seedAux, getE_eq closes i hi, getE_eq closes (i - 1) hi1,
      ok_bind, seedAuxC_eq closes n (i + 1) (by omega)]
    split_ifs <;> rfl

/-- The checked smoothing loop succeeds when every index is in range and the
period divisor is nonzero. -/
theorem smoothAuxC_eq (closes : List ℚ) (period : ℕ) (hp : (period : ℚ) ≠ 0) :
    ∀ (n i : ℕ), i + n ≤ closes.length → ∀ (ag al : ℚ),
      smoothAuxC closes period i ag al n = .ok (smoothAux closes period i ag al n)
  | 0, _, _, _, _ => rfl
  | n + 1, i, h, ag, al => by
    have hi : i < closes.length := by omega
    have hi1 : i - 1 < closes.length := by omega
    simp only [smoothAuxC, smoothAux, getE_eq closes i hi, getE_eq closes (i - 1) hi1,
      ok_bind, divE_eq hp, smoothAuxC_eq closes period hp n (i + 1) (by omega)]

/-- Claim C10: for every close list and period ≥ 1, `calculate_rsi` is total —
the checked run (with every list access and division made explicit) raises no
index error and no division by zero and returns exactly the plain function's
optional result. -/
theorem c10_checked_total (closes : List ℚ) (period : ℕ) (hp : 1 ≤ period) :
    calcRsiChecked closes period = .ok (calculate_rsi closes period) := by
  have hq : (period : ℚ) ≠ 0 := Nat.cast_ne_zero.mpr (by omega)
  by_cases hl : closes.length < period + 1
  · unfold calcRsiChecked calculate_rsi
    rw [if_pos hl, if_pos hl]
  · push_neg at hl
    unfold calcRsiChecked calculate_rsi
    rw [if_neg (not_lt.mpr hl), if_neg (not_lt.mpr hl)]
    simp only [seedAuxC_eq closes period 1 (by omega), ok_bind, divE_eq hq,
      smoothAuxC_eq closes period hq (closes.length - (period + 1)) (period + 1) (by omega)]
    split_ifs with h0
    · rfl
    · rw [divE_eq h0, ok_bind]

/-- Witness for C10 on the pinned scenario. -/
theorem c10_witness : calcRsiChecked pinnedCloses 14 = .ok (calculate_rsi pinnedCloses 14) :=
  c10_checked_total pinnedCloses 14 (by norm_num)

end ForexRsiBot
